import Mathlib

/-!
# Shallow embedding of `src/engine.py` (`FIRE_Engine_V10`)

This file embeds the ticket-distribution engine of the repository into Lean:

* string helpers reproducing the Python primitives used by the engine
  (`str.lower`, `str.upper`, `in` substring test, `str.replace`,
  `str.strip`, `str.capitalize`) over the character ranges that occur in
  the data (ASCII plus the Cyrillic and Kazakh letters the code mentions);
* the data model (`Ticket`, `Manager`, `AIResult`, `AssignmentResult`,
  `RunState`);
* `analyze_ticket`, `get_office`, the candidate filter pipeline,
  VIP escalation, fallback, the selector and `distribute`.

DataFrame rows are modelled as lists; row indices (used by
`self.managers.at[selected.name, "load"] += 1`) become positions in the
manager list, carried through the pipeline as `Nat × Manager` pairs
(mirroring pandas preserving the original index through filters and
copies).  Missing cells are `Option` values, matching
`ticket.get(field, default)`.  `pandas` sorting by `["load", "name"]`
(numpy lexsort) is stable, so the sort is embedded as a stable insertion
sort.  Dictionary state (`rr_counters`) is an association list whose
lookup returns the most recent binding; `unknown_loc_counter` is a
natural number.
-/

namespace Fire

/-- Python `str.lower` restricted to ASCII Latin, the Cyrillic block
А-Я / Ё-Џ, and the Kazakh capitals used by the engine's data. -/
def charToLower (c : Char) : Char :=
  let n := c.toNat
  if 65 ≤ n ∧ n ≤ 90 then Char.ofNat (n + 32)
  else if 1040 ≤ n ∧ n ≤ 1071 then Char.ofNat (n + 32)
  else if 1024 ≤ n ∧ n ≤ 1039 then Char.ofNat (n + 80)
  else if n = 1240 ∨ n = 1170 ∨ n = 1178 ∨ n = 1186 ∨ n = 1256 ∨ n = 1200 ∨
          n = 1198 ∨ n = 1210 then Char.ofNat (n + 1)
  else c

/-- Python `str.upper` on the same character ranges. -/
def charToUpper (c : Char) : Char :=
  let n := c.toNat
  if 97 ≤ n ∧ n ≤ 122 then Char.ofNat (n - 32)
  else if 1072 ≤ n ∧ n ≤ 1103 then Char.ofNat (n - 32)
  else if 1104 ≤ n ∧ n ≤ 1119 then Char.ofNat (n - 80)
  else if n = 1241 ∨ n = 1171 ∨ n = 1179 ∨ n = 1187 ∨ n = 1257 ∨ n = 1201 ∨
          n = 1199 ∨ n = 1211 then Char.ofNat (n - 1)
  else c

def strLower (s : String) : String := ⟨s.data.map charToLower⟩

def strUpper (s : String) : String := ⟨s.data.map charToUpper⟩

/-- Python `str.capitalize`: first character uppercased, rest lowered. -/
def pyCapitalize (s : String) : String :=
  match s.data with
  | [] => ""
  | c :: rest => ⟨charToUpper c :: rest.map charToLower⟩

/-- `startsWithChars needle hay`: `hay` begins with `needle`. -/
def startsWithChars : List Char → List Char → Bool
  | [], _ => true
  | _ :: _, [] => false
  | a :: l₁, b :: l₂ => a == b && startsWithChars l₁ l₂

/-- `containsChars hay needle`: Python `needle in hay` (an empty needle
matches anything, as in Python). -/
def containsChars (hay needle : List Char) : Bool :=
  match hay with
  | [] => needle.isEmpty
  | c :: t => startsWithChars needle (c :: t) || containsChars t needle

def strContains (hay needle : String) : Bool := containsChars hay.data needle.data

/-- Fuelled left-to-right non-overlapping replacement, Python
`str.replace` for a non-empty pattern; fuel is the hay length. -/
def replaceChars : Nat → List Char → List Char → List Char → List Char
  | _, [], _, _ => []
  | 0, hay, _, _ => hay
  | fuel + 1, c :: t, pat, rep =>
    if pat ≠ [] ∧ startsWithChars pat (c :: t) then
      rep ++ replaceChars fuel (List.drop pat.length (c :: t)) pat rep
    else c :: replaceChars fuel t pat rep

def pyReplace (s pat rep : String) : String :=
  ⟨replaceChars s.data.length s.data pat.data rep.data⟩

/-- Python `str.strip()` (whitespace at both ends). -/
def pyStrip (s : String) : String :=
  ⟨((s.data.dropWhile Char.isWhitespace).reverse.dropWhile Char.isWhitespace).reverse⟩

/-! ## Data model -/

/-- A ticket row after column normalization; `none` models a missing
cell (so `ticket.get(field, default)` becomes `Option.getD`). -/
structure Ticket where
  guid : Option String
  description : Option String
  segment : Option String
  country : Option String
  city : Option String
deriving DecidableEq, Repr

/-- A manager row after the `__init__` normalization: `pos_norm` is the
normalized position, `skills_set` the parsed upper-cased skill tokens,
`load` the numeric load (`astype(int)`, hence `Int`). -/
structure Manager where
  name : String
  pos_norm : String
  skills_set : List String
  office : String
  load : Int
deriving DecidableEq, Repr

/-- The classification produced by `analyze_ticket`. -/
structure AIResult where
  t_type : String
  lang : String
  priority : Nat
  segment : String
deriving DecidableEq, Repr

/-- One output row of `distribute`. -/
structure AssignmentResult where
  guid : String
  ai_type : String
  ai_lang : String
  priority : Nat
  office : String
  manager : String
deriving DecidableEq, Repr

/-- Engine configuration: the business-unit office names (already
stripped, as `__init__` does) and the `enable_fallback` flag. -/
structure Engine where
  units : List String
  enable_fallback : Bool
deriving DecidableEq, Repr

/-- `_find_canonical_office`: first unit whose lowered name contains the
pattern, else the capitalized pattern itself. -/
def find_canonical_office (units : List String) (pat : String) : String :=
  match units.find? (fun off => strContains (strLower off) pat) with
  | some off => off
  | none => pyCapitalize pat

def astana_office (eng : Engine) : String := find_canonical_office eng.units "астан"

def almaty_office (eng : Engine) : String := find_canonical_office eng.units "алмат"

/-! ## `analyze_ticket` -/

/-- The characters of the regex `[әғқңөұүһіІ]` used for Kazakh detection. -/
def kzChars : List Char := ['ә', 'ғ', 'қ', 'ң', 'ө', 'ұ', 'ү', 'һ', 'і', 'І']

def isAsciiLowerAlpha (c : Char) : Bool := decide (97 ≤ c.toNat ∧ c.toNat ≤ 122)

/-- The regex `[a-z]{3,}`: three consecutive ASCII lowercase letters
somewhere in the text. -/
def hasLatinRun3 : List Char → Bool
  | a :: b :: c :: rest =>
    (isAsciiLowerAlpha a && isAsciiLowerAlpha b && isAsciiLowerAlpha c) ||
      hasLatinRun3 (b :: c :: rest)
  | _ => false

/-- The ordered keyword table of `analyze_ticket` (insertion order of
the Python dict). -/
def keywordTable : List (String × List String) :=
  [("Мошеннические действия", ["мошенник", "украли", "фрод", "взлом"]),
   ("Неработоспособность приложения", ["ошибка", "баг", "не работает", "вылетает"]),
   ("Претензия", ["претензия", "возврат", "суд", "компенсация"]),
   ("Смена данных", ["паспорт", "данные", "фио", "смена", "изменить"]),
   ("Жалоба", ["жалоба", "ужасно", "плохо", "недоволен"]),
   ("Спам", ["реклама", "выиграли", "приз", "акция"])]

/-- First keyword category matching the (lowered) text, else the default. -/
def classifyType (text : String) : String :=
  match keywordTable.find? (fun kw => kw.2.any (fun w => strContains text w)) with
  | some kw => kw.1
  | none => "Консультация"

/-- `FIRE_Engine_V10.analyze_ticket`. -/
def analyze_ticket (t : Ticket) : AIResult :=
  let text := strLower (t.description.getD "")
  let rawSeg := strUpper (t.segment.getD "MASS")
  let segment :=
    if strContains rawSeg "VIP" then "VIP"
    else if strContains rawSeg "PRIORITY" then "PRIORITY"
    else "MASS"
  let lang :=
    if text.data.any (fun c => kzChars.contains c) then "KZ"
    else if hasLatinRun3 text.data then "ENG"
    else "RU"
  let tType := classifyType text
  let priority0 : Nat :=
    if tType = "Мошеннические действия" ∨ tType = "Претензия" then 9
    else if tType = "Жалоба" ∨ tType = "Неработоспособность приложения" then 7
    else 3
  let priority :=
    if segment = "VIP" then max priority0 10
    else if segment = "PRIORITY" then max priority0 8
    else priority0
  ⟨tType, lang, priority, segment⟩

/-! ## `get_office` -/

/-- A character kept by `re.sub(r"[^a-zа-я]+", "", country)`. -/
def isCountryChar (c : Char) : Bool :=
  decide ((97 ≤ c.toNat ∧ c.toNat ≤ 122) ∨ (1072 ≤ c.toNat ∧ c.toNat ≤ 1103))

/-- The unit name lowered, with every occurrence of `"офис"` removed and
the result stripped — the `root` of the city-matching loop. -/
def officeRoot (off : String) : String := pyStrip (pyReplace (strLower off) "офис" "")

/-- The city-matching loop of `get_office`: first unit whose root is
non-empty and is contained in the city or contains the city. -/
def find_city_office : List String → String → Option String
  | [], _ => none
  | off :: rest, city =>
    if officeRoot off ≠ "" ∧
        (strContains city (officeRoot off) ∨ strContains (officeRoot off) city) then
      some off
    else find_city_office rest city

/-- `re.sub(r"[^a-zа-я]+", "", country.lower())`. -/
def country_norm (t : Ticket) : String :=
  ⟨(strLower (t.country.getD "")).data.filter isCountryChar⟩

/-- `FIRE_Engine_V10.get_office`; the second component is the updated
`unknown_loc_counter`. -/
def get_office (units : List String) (astana almaty : String) (cnt : Nat)
    (t : Ticket) : String × Nat :=
  match find_city_office units (strLower (t.city.getD "")) with
  | some off => (off, cnt)
  | none =>
    if ¬ (strContains (country_norm t) "казахстан" ∨
          strContains (country_norm t) "kazakhstan" ∨
          strContains (country_norm t) "kz") then
      ((if cnt % 2 = 0 then astana else almaty), cnt + 1)
    else
      (astana, cnt)

/-! ## Distribution state -/

/-- Round-robin bucket key: `(office, segment bucket, intent, language)`. -/
abbrev RRKey := String × String × String × String

/-- The engine's mutable state during `distribute`: the manager rows
(the row index is the list position), the `rr_counters` dict (an
association list whose head binding is the most recent write) and
`unknown_loc_counter`. -/
structure RunState where
  managers : List Manager
  rr_counters : List (RRKey × Nat)
  unknown_loc_counter : Nat
deriving DecidableEq, Repr

/-- `self.rr_counters.get(key, 0)`. -/
def rr_get : List (RRKey × Nat) → RRKey → Nat
  | [], _ => 0
  | (k, v) :: t, key => if k = key then v else rr_get t key

/-- `self.rr_counters[key] = v` (most recent binding shadows older ones). -/
def rr_set (l : List (RRKey × Nat)) (k : RRKey) (v : Nat) : List (RRKey × Nat) :=
  (k, v) :: l

/-- Attach DataFrame row indices starting at `i`. -/
def idxFrom (i : Nat) : List Manager → List (Nat × Manager)
  | [] => []
  | m :: ms => (i, m) :: idxFrom (i + 1) ms

/-- The manager pool with its row indices (`self.managers`). -/
def indexedManagers (ms : List Manager) : List (Nat × Manager) := idxFrom 0 ms

/-! ## Candidate filter pipeline (`distribute`, filter stages 1-3) -/

/-- Stage 0: `self.managers[self.managers["office"] == office]`. -/
def office_pool (pool : List (Nat × Manager)) (office : String) : List (Nat × Manager) :=
  pool.filter (fun p => p.2.office == office)

/-- Stage 1: VIP/PRIORITY segments require skill `"VIP"`. -/
def segment_gate (ai : AIResult) (pool : List (Nat × Manager)) : List (Nat × Manager) :=
  if ai.segment = "VIP" ∨ ai.segment = "PRIORITY" then
    pool.filter (fun p => p.2.skills_set.contains "VIP")
  else pool

/-- Stage 2: intent `"Смена данных"` requires a chief-specialist position. -/
def data_change_gate (ai : AIResult) (pool : List (Nat × Manager)) : List (Nat × Manager) :=
  if ai.t_type = "Смена данных" then
    pool.filter (fun p => strContains p.2.pos_norm "глав" && strContains p.2.pos_norm "спец")
  else pool

/-- Stage 3: non-default language requires that language code as a skill. -/
def language_gate (ai : AIResult) (pool : List (Nat × Manager)) : List (Nat × Manager) :=
  if ai.lang = "KZ" ∨ ai.lang = "ENG" then
    pool.filter (fun p => p.2.skills_set.contains ai.lang)
  else pool

/-- The whole filter pipeline applied to the indexed pool. -/
def pipeline_filter (pool : List (Nat × Manager)) (office : String) (ai : AIResult) :
    List (Nat × Manager) :=
  language_gate ai (data_change_gate ai (segment_gate ai (office_pool pool office)))

/-! ## VIP escalation and fallback -/

/-- Capital-office managers with skill `"VIP"` (the escalation pool,
built from the full unfiltered manager pool). -/
def escalation_pool (pool : List (Nat × Manager)) (astana almaty : String) :
    List (Nat × Manager) :=
  (pool.filter (fun p => p.2.office == astana || p.2.office == almaty)).filter
    (fun p => p.2.skills_set.contains "VIP")

/-- The candidate set and effective office after the VIP-escalation
check: a VIP ticket with an empty pipeline output is re-targeted to the
capital pool under the synthetic office `"CAPITAL_ESCALATION"`. -/
def after_escalation (pool : List (Nat × Manager)) (office0 : String) (ai : AIResult)
    (astana almaty : String) : List (Nat × Manager) × String :=
  if ai.segment = "VIP" ∧ pipeline_filter pool office0 ai = [] then
    (escalation_pool pool astana almaty, "CAPITAL_ESCALATION")
  else (pipeline_filter pool office0 ai, office0)

/-- The fallback step: when enabled and the set is empty, take the full
unfiltered pool of the current effective office. -/
def after_fallback (eng : Engine) (pool : List (Nat × Manager))
    (p : List (Nat × Manager) × String) : List (Nat × Manager) × String :=
  if p.1 = [] ∧ eng.enable_fallback then (office_pool pool p.2, p.2) else p

/-- Classification, office resolution, filtering, escalation and
fallback for one ticket: returns the final candidate set, the effective
office and the updated `unknown_loc_counter`. -/
def final_candidates (eng : Engine) (st : RunState) (t : Ticket) :
    List (Nat × Manager) × String × Nat :=
  let ai := analyze_ticket t
  let a := astana_office eng
  let b := almaty_office eng
  let r := get_office eng.units a b st.unknown_loc_counter t
  let pool := indexedManagers st.managers
  let q := after_fallback eng pool (after_escalation pool r.1 ai a b)
  (q.1, q.2, r.2)

/-! ## Selector -/

/-- Code-point lexicographic order on character lists — exactly
Python's `<` on strings (a strict prefix is smaller). -/
def chars_lt : List Char → List Char → Bool
  | [], [] => false
  | [], _ :: _ => true
  | _ :: _, [] => false
  | a :: l1, b :: l2 =>
    if a.toNat < b.toNat then true
    else if b.toNat < a.toNat then false
    else chars_lt l1 l2

/-- Strict `(load, name)` lexicographic order on candidates; string
comparison is code-point lexicographic, as in Python. -/
def cand_lt (x y : Nat × Manager) : Bool :=
  decide (x.2.load < y.2.load ∨
    (x.2.load = y.2.load ∧ chars_lt x.2.name.data y.2.name.data = true))

/-- Stable insertion into a `(load, name)`-sorted list: the new element
goes before every element it is not strictly greater than. -/
def insert_cand (x : Nat × Manager) : List (Nat × Manager) → List (Nat × Manager)
  | [] => [x]
  | y :: ys => if cand_lt y x then y :: insert_cand x ys else x :: y :: ys

/-- Stable sort by `(load ascending, name ascending)` — the semantics of
`subset.sort_values(["load", "name"])` (numpy lexsort is stable). -/
def sort_cands : List (Nat × Manager) → List (Nat × Manager)
  | [] => []
  | x :: xs => insert_cand x (sort_cands xs)

/-- The selector: sort, take the top two, pick `counter mod len` —
`none` exactly when the candidate set is empty. -/
def select_manager (rr : List (RRKey × Nat)) (key : RRKey)
    (subset : List (Nat × Manager)) : Option (Nat × Manager) :=
  match sort_cands subset with
  | [] => none
  | m :: rest =>
    let top2 := m :: rest.take 1
    some (top2.getD (rr_get rr key % top2.length) m)

/-- `self.managers.at[i, "load"] += 1`. -/
def bump_load : List Manager → Nat → List Manager
  | [], _ => []
  | m :: ms, 0 => { m with load := m.load + 1 } :: ms
  | m :: ms, Nat.succ i => m :: bump_load ms i

/-- One iteration of the `distribute` loop: classify, resolve, filter,
escalate, fall back, select (mutating load and the round-robin counter
only when a candidate exists), and build the result row. -/
def step_ticket (eng : Engine) (st : RunState) (t : Ticket) :
    RunState × AssignmentResult :=
  let ai := analyze_ticket t
  let fc := final_candidates eng st t
  let key : RRKey := (fc.2.1, ai.segment, ai.t_type, ai.lang)
  let base : AssignmentResult :=
    ⟨t.guid.getD "N/A", ai.t_type, ai.lang, ai.priority, fc.2.1, "UNASSIGNED"⟩
  match select_manager st.rr_counters key fc.1 with
  | none => (⟨st.managers, st.rr_counters, fc.2.2⟩, base)
  | some sel =>
    (⟨bump_load st.managers sel.1,
      rr_set st.rr_counters key (rr_get st.rr_counters key + 1), fc.2.2⟩,
     { base with manager := sel.2.name })

/-- `FIRE_Engine_V10.distribute`: fold the per-ticket step over the
ticket list, returning the results in input order and the final state. -/
def distribute (eng : Engine) : RunState → List Ticket → List AssignmentResult × RunState
  | st, [] => ([], st)
  | st, t :: ts =>
    let p := step_ticket eng st t
    let q := distribute eng p.1 ts
    (p.2 :: q.1, q.2)

/-- The state a fresh engine starts a run with (`rr_counters = {}`,
`unknown_loc_counter = 0`). -/
def init_state (ms : List Manager) : RunState := ⟨ms, [], 0⟩

/-! ## Basic lemmas about the state primitives -/

theorem rr_get_set_self (l : List (RRKey × Nat)) (k : RRKey) (v : Nat) :
    rr_get (rr_set l k v) k = v := by
  simp [rr_set, rr_get]

theorem rr_get_set_ne (l : List (RRKey × Nat)) (k k' : RRKey) (v : Nat)
    (h : k' ≠ k) : rr_get (rr_set l k v) k' = rr_get l k' := by
  simp only [rr_set, rr_get]
  exact if_neg (fun hk => h hk.symm)

theorem bump_load_length : ∀ (l : List Manager) (i : Nat),
    (bump_load l i).length = l.length
  | [], _ => rfl
  | _ :: _, 0 => rfl
  | _ :: ms, Nat.succ i => congrArg Nat.succ (bump_load_length ms i)

theorem bump_load_get_self : ∀ (l : List Manager) (i : Nat) (m : Manager),
    l[i]? = some m → (bump_load l i)[i]? = some { m with load := m.load + 1 }
  | m₀ :: ms, 0, m, h => by
    simp_all [bump_load]
  | m₀ :: ms, Nat.succ i, m, h => by
    simpa [bump_load] using bump_load_get_self ms i m (by simpa using h)

theorem bump_load_get_ne : ∀ (l : List Manager) (i j : Nat), j ≠ i →
    (bump_load l i)[j]? = l[j]?
  | [], _, _, _ => by simp [bump_load]
  | m₀ :: ms, 0, j, h => by
    cases j with
    | zero => exact absurd rfl h
    | succ j => simp [bump_load]
  | m₀ :: ms, Nat.succ i, j, h => by
    cases j with
    | zero => simp [bump_load]
    | succ j =>
      simpa [bump_load] using bump_load_get_ne ms i j (fun hji => h (by simp [hji]))

theorem mem_idxFrom : ∀ (l : List Manager) (i : Nat) (p : Nat × Manager),
    p ∈ idxFrom i l → i ≤ p.1 ∧ l[p.1 - i]? = some p.2
  | [], i, p, h => by simp [idxFrom] at h
  | m :: ms, i, p, h => by
    simp only [idxFrom, List.mem_cons] at h
    rcases h with h | h
    · subst h; simp
    · obtain ⟨h1, h2⟩ := mem_idxFrom ms (i + 1) p h
      refine ⟨by omega, ?_⟩
      have hd : p.1 - i = (p.1 - (i + 1)) + 1 := by omega
      rw [hd]
      simpa using h2

theorem mem_indexedManagers (ms : List Manager) (p : Nat × Manager)
    (h : p ∈ indexedManagers ms) : ms[p.1]? = some p.2 := by
  have := mem_idxFrom ms 0 p h
  simpa using this.2

/-! ## Membership lemmas for the filter stages -/

theorem mem_of_office_pool {pool : List (Nat × Manager)} {office : String}
    {p : Nat × Manager} (h : p ∈ office_pool pool office) : p ∈ pool :=
  List.mem_of_mem_filter h

theorem mem_of_segment_gate {ai : AIResult} {pool : List (Nat × Manager)}
    {p : Nat × Manager} (h : p ∈ segment_gate ai pool) : p ∈ pool := by
  unfold segment_gate at h
  split at h
  · exact List.mem_of_mem_filter h
  · exact h

theorem mem_of_data_change_gate {ai : AIResult} {pool : List (Nat × Manager)}
    {p : Nat × Manager} (h : p ∈ data_change_gate ai pool) : p ∈ pool := by
  unfold data_change_gate at h
  split at h
  · exact List.mem_of_mem_filter h
  · exact h

theorem mem_of_language_gate {ai : AIResult} {pool : List (Nat × Manager)}
    {p : Nat × Manager} (h : p ∈ language_gate ai pool) : p ∈ pool := by
  unfold language_gate at h
  split at h
  · exact List.mem_of_mem_filter h
  · exact h

theorem mem_of_pipeline_filter {pool : List (Nat × Manager)} {office : String}
    {ai : AIResult} {p : Nat × Manager} (h : p ∈ pipeline_filter pool office ai) :
    p ∈ pool :=
  mem_of_office_pool (mem_of_segment_gate (mem_of_data_change_gate
    (mem_of_language_gate h)))

theorem mem_of_escalation_pool {pool : List (Nat × Manager)} {a b : String}
    {p : Nat × Manager} (h : p ∈ escalation_pool pool a b) : p ∈ pool :=
  List.mem_of_mem_filter (List.mem_of_mem_filter h)

theorem mem_of_after_escalation {pool : List (Nat × Manager)} {office0 : String}
    {ai : AIResult} {a b : String} {p : Nat × Manager}
    (h : p ∈ (after_escalation pool office0 ai a b).1) : p ∈ pool := by
  unfold after_escalation at h
  split at h
  · exact mem_of_escalation_pool h
  · exact mem_of_pipeline_filter h

theorem mem_of_after_fallback {eng : Engine} {pool : List (Nat × Manager)}
    {q : List (Nat × Manager) × String} {p : Nat × Manager}
    (h : p ∈ (after_fallback eng pool q).1) : p ∈ pool ∨ p ∈ q.1 := by
  unfold after_fallback at h
  split at h
  · exact Or.inl (mem_of_office_pool h)
  · exact Or.inr h

/-- Every candidate surviving filtering, escalation and fallback is a
genuine row of the manager pool: its carried index points back at it. -/
theorem final_candidates_coherent (eng : Engine) (st : RunState) (t : Ticket)
    (p : Nat × Manager) (h : p ∈ (final_candidates eng st t).1) :
    st.managers[p.1]? = some p.2 := by
  unfold final_candidates at h
  rcases mem_of_after_fallback h with h' | h'
  · exact mem_indexedManagers st.managers p h'
  · exact mem_indexedManagers st.managers p (mem_of_after_escalation h')

/-! ## Sorting lemmas -/

theorem chars_lt_asymm : ∀ (l1 l2 : List Char),
    chars_lt l1 l2 = true → chars_lt l2 l1 = false
  | [], [], h => by simp [chars_lt] at h
  | [], _ :: _, _ => by simp [chars_lt]
  | _ :: _, [], h => by simp [chars_lt] at h
  | a :: l1, b :: l2, h => by
    simp only [chars_lt] at h ⊢
    by_cases h1 : a.toNat < b.toNat
    · rw [if_neg (by omega), if_pos h1]
    · by_cases h2 : b.toNat < a.toNat
      · rw [if_neg h1, if_pos h2] at h
        exact absurd h (by simp)
      · rw [if_neg h1, if_neg h2] at h
        rw [if_neg h2, if_neg h1]
        exact chars_lt_asymm l1 l2 h

/-- A strict linear order's connectedness: `l1 < l3` forces `l1 < l2`
or `l2 < l3`. -/
theorem chars_lt_trans_neg : ∀ (l1 l2 l3 : List Char),
    chars_lt l1 l3 = true → chars_lt l1 l2 = true ∨ chars_lt l2 l3 = true
  | [], [], _, h => Or.inr h
  | [], _ :: _, _, _ => Or.inl (by simp [chars_lt])
  | l1, _, [], h => absurd h (by cases l1 <;> simp [chars_lt])
  | _ :: _, [], _ :: _, _ => Or.inr (by simp [chars_lt])
  | a :: l1, b :: l2, c :: l3, h => by
    simp only [chars_lt] at h ⊢
    rcases Nat.lt_trichotomy a.toNat b.toNat with h1 | h1 | h1
    · left
      rw [if_pos h1]
    · by_cases hac : a.toNat < c.toNat
      · right
        rw [if_pos (by omega)]
      · by_cases hca : c.toNat < a.toNat
        · rw [if_neg hac, if_pos hca] at h
          exact absurd h (by simp)
        · rw [if_neg hac, if_neg hca] at h
          rcases chars_lt_trans_neg l1 l2 l3 h with ht | ht
          · left
            rw [if_neg (by omega), if_neg (by omega)]
            exact ht
          · right
            rw [if_neg (by omega), if_neg (by omega)]
            exact ht
    · by_cases hac : a.toNat < c.toNat
      · right
        rw [if_pos (by omega)]
      · by_cases hca : c.toNat < a.toNat
        · rw [if_neg hac, if_pos hca] at h
          exact absurd h (by simp)
        · right
          rw [if_pos (by omega)]

/-- Propositional form of the strict `(load, name)` candidate order. -/
def candLtP (x y : Nat × Manager) : Prop :=
  x.2.load < y.2.load ∨
    (x.2.load = y.2.load ∧ chars_lt x.2.name.data y.2.name.data = true)

theorem cand_lt_iff (x y : Nat × Manager) : cand_lt x y = true ↔ candLtP x y := by
  simp [cand_lt, candLtP]

theorem cand_lt_false_iff (x y : Nat × Manager) :
    cand_lt x y = false ↔ ¬ candLtP x y := by
  simp [cand_lt, candLtP]

/-- Incomparability in a lexicographic strict order is transitive:
`¬(z < y)` and `¬(y < x)` give `¬(z < x)`. -/
theorem candLtP_neg_trans {x y z : Nat × Manager}
    (hzy : ¬ candLtP z y) (hyx : ¬ candLtP y x) : ¬ candLtP z x := by
  unfold candLtP at *
  push_neg at hzy hyx
  intro h
  rcases h with h | ⟨he, hn⟩
  · have h1 := hzy.1
    have h2 := hyx.1
    have hyz : y.2.load ≤ z.2.load := by omega
    have hxy : x.2.load ≤ y.2.load := by omega
    omega
  · have h1 := hzy.1
    have h2 := hyx.1
    have hyz : y.2.load = z.2.load := by omega
    have hxy : x.2.load = y.2.load := by omega
    have hny := hzy.2 hyz.symm
    have hnx := hyx.2 hxy.symm
    rcases chars_lt_trans_neg z.2.name.data y.2.name.data x.2.name.data hn with
      hc | hc
    · exact hny hc
    · exact hnx hc

theorem insert_cand_perm (x : Nat × Manager) :
    ∀ l : List (Nat × Manager), (insert_cand x l).Perm (x :: l)
  | [] => List.Perm.refl _
  | y :: ys => by
    unfold insert_cand
    split
    · exact ((insert_cand_perm x ys).cons y).trans (List.Perm.swap x y ys)
    · exact List.Perm.refl _

theorem sort_cands_perm : ∀ l : List (Nat × Manager), (sort_cands l).Perm l
  | [] => List.Perm.refl _
  | x :: xs => (insert_cand_perm x (sort_cands xs)).trans
      (((sort_cands_perm xs)).cons x)

theorem sort_cands_eq_nil_iff (l : List (Nat × Manager)) :
    sort_cands l = [] ↔ l = [] := by
  constructor
  · intro h
    have := (sort_cands_perm l).length_eq
    rw [h] at this
    exact List.eq_nil_of_length_eq_zero this.symm
  · intro h; subst h; rfl

theorem mem_of_mem_sort_cands {l : List (Nat × Manager)} {p : Nat × Manager}
    (h : p ∈ sort_cands l) : p ∈ l :=
  (sort_cands_perm l).mem_iff.mp h

/-- The strict candidate order is asymmetric. -/
theorem candLtP_asymm {x y : Nat × Manager} (h : candLtP x y) : ¬ candLtP y x := by
  unfold candLtP at *
  intro h'
  rcases h with h | ⟨he, hn⟩ <;> rcases h' with h' | ⟨he', hn'⟩
  · omega
  · omega
  · omega
  · have hf := chars_lt_asymm _ _ hn
    rw [hf] at hn'
    exact absurd hn' (by simp)

theorem insert_cand_sorted (x : Nat × Manager) :
    ∀ l : List (Nat × Manager),
    List.Pairwise (fun a b => ¬ candLtP b a) l →
    List.Pairwise (fun a b => ¬ candLtP b a) (insert_cand x l)
  | [], _ => List.Pairwise.cons (by simp) List.Pairwise.nil
  | y :: ys, h => by
    unfold insert_cand
    rcases List.pairwise_cons.mp h with ⟨hy, hys⟩
    by_cases hc : cand_lt y x = true
    · rw [if_pos hc]
      refine List.pairwise_cons.mpr ⟨?_, insert_cand_sorted x ys hys⟩
      intro z hz
      have hz' := (insert_cand_perm x ys).mem_iff.mp hz
      rcases List.mem_cons.mp hz' with hz'' | hz''
      · rw [hz'']
        exact candLtP_asymm ((cand_lt_iff y x).mp hc)
      · exact hy z hz''
    · rw [if_neg hc]
      have hyx : ¬ candLtP y x :=
        (cand_lt_false_iff y x).mp (Bool.eq_false_iff.mpr hc)
      refine List.pairwise_cons.mpr ⟨?_, h⟩
      intro z hz
      rcases List.mem_cons.mp hz with hz | hz
      · exact hz ▸ hyx
      · exact candLtP_neg_trans (hy z hz) hyx

theorem sort_cands_sorted : ∀ l : List (Nat × Manager),
    List.Pairwise (fun a b => ¬ candLtP b a) (sort_cands l)
  | [] => List.Pairwise.nil
  | x :: xs => insert_cand_sorted x (sort_cands xs) (sort_cands_sorted xs)

/-! ## Selector lemmas -/

theorem list_getD_mem_or_default {α : Type} :
    ∀ (l : List α) (n : Nat) (d : α), l.getD n d ∈ l ∨ l.getD n d = d
  | [], _, d => Or.inr (by simp)
  | a :: _, 0, _ => Or.inl (by simp)
  | a :: t, n + 1, d => by
    rw [List.getD_cons_succ]
    rcases list_getD_mem_or_default t n d with h | h
    · exact Or.inl (List.mem_cons_of_mem a h)
    · exact Or.inr h

theorem select_manager_eq_none_iff (rr : List (RRKey × Nat)) (key : RRKey)
    (subset : List (Nat × Manager)) :
    select_manager rr key subset = none ↔ subset = [] := by
  constructor
  · intro h
    rcases hs : sort_cands subset with _ | ⟨m, rest⟩
    · exact (sort_cands_eq_nil_iff subset).mp hs
    · unfold select_manager at h
      rw [hs] at h
      simp at h
  · intro h; subst h; rfl

theorem select_manager_mem {rr : List (RRKey × Nat)} {key : RRKey}
    {subset : List (Nat × Manager)} {sel : Nat × Manager}
    (h : select_manager rr key subset = some sel) : sel ∈ subset := by
  rcases hs : sort_cands subset with _ | ⟨m, rest⟩
  · unfold select_manager at h
    rw [hs] at h
    exact absurd h (by simp)
  · unfold select_manager at h
    rw [hs] at h
    simp only [Option.some.injEq] at h
    have hmem : sel ∈ m :: rest.take 1 := by
      rw [← h]
      rcases list_getD_mem_or_default (m :: rest.take 1)
          (rr_get rr key % (m :: rest.take 1).length) m with h' | h'
      · exact h'
      · rw [h']; exact List.mem_cons_self m _
    have : sel ∈ m :: rest := by
      rcases List.mem_cons.mp hmem with h' | h'
      · exact h' ▸ List.mem_cons_self m rest
      · exact List.mem_cons_of_mem m (List.mem_of_mem_take h')
    rw [← hs] at this
    exact mem_of_mem_sort_cands this

/-! ## Characterization of one `distribute` iteration -/

/-- The round-robin bucket key the engine uses for a ticket:
`(effective office, segment bucket, intent, language)`. -/
def ticket_key (eng : Engine) (st : RunState) (t : Ticket) : RRKey :=
  ((final_candidates eng st t).2.1, (analyze_ticket t).segment,
   (analyze_ticket t).t_type, (analyze_ticket t).lang)

theorem step_ticket_of_none (eng : Engine) (st : RunState) (t : Ticket)
    (h : select_manager st.rr_counters (ticket_key eng st t)
        (final_candidates eng st t).1 = none) :
    step_ticket eng st t =
      (⟨st.managers, st.rr_counters, (final_candidates eng st t).2.2⟩,
       ⟨t.guid.getD "N/A", (analyze_ticket t).t_type, (analyze_ticket t).lang,
        (analyze_ticket t).priority, (final_candidates eng st t).2.1, "UNASSIGNED"⟩) := by
  simp only [ticket_key] at h
  simp only [step_ticket]
  rw [h]

theorem step_ticket_of_some (eng : Engine) (st : RunState) (t : Ticket)
    (sel : Nat × Manager)
    (h : select_manager st.rr_counters (ticket_key eng st t)
        (final_candidates eng st t).1 = some sel) :
    step_ticket eng st t =
      (⟨bump_load st.managers sel.1,
        rr_set st.rr_counters (ticket_key eng st t)
          (rr_get st.rr_counters (ticket_key eng st t) + 1),
        (final_candidates eng st t).2.2⟩,
       ⟨t.guid.getD "N/A", (analyze_ticket t).t_type, (analyze_ticket t).lang,
        (analyze_ticket t).priority, (final_candidates eng st t).2.1, sel.2.name⟩) := by
  simp only [ticket_key] at h ⊢
  simp only [step_ticket]
  rw [h]

/-- The office recorded in a ticket's result row is the effective office
computed by resolution plus escalation. -/
theorem step_ticket_office (eng : Engine) (st : RunState) (t : Ticket) :
    (step_ticket eng st t).2.office = (final_candidates eng st t).2.1 := by
  rcases h : select_manager st.rr_counters (ticket_key eng st t)
      (final_candidates eng st t).1 with _ | sel
  · rw [step_ticket_of_none eng st t h]
  · rw [step_ticket_of_some eng st t sel h]

/-! ## Office-resolution lemmas -/

theorem find_city_office_mem : ∀ (units : List String) (city off : String),
    find_city_office units city = some off → off ∈ units
  | [], _, _, h => by simp [find_city_office] at h
  | u :: rest, city, off, h => by
    unfold find_city_office at h
    split at h
    · exact (Option.some.injEq _ _ ▸ h) ▸ List.mem_cons_self u rest
    · exact List.mem_cons_of_mem u (find_city_office_mem rest city off h)

/-- `get_office` returns a city-matched unit, or one of the two
canonical capital offices. -/
theorem get_office_cases (units : List String) (a b : String) (cnt : Nat)
    (t : Ticket) :
    (get_office units a b cnt t).1 ∈ units ∨
    (get_office units a b cnt t).1 = a ∨ (get_office units a b cnt t).1 = b := by
  unfold get_office
  rcases h : find_city_office units (strLower (t.city.getD "")) with _ | off
  · simp only [h]
    by_cases h1 : ¬ (strContains (country_norm t) "казахстан" = true ∨
        strContains (country_norm t) "kazakhstan" = true ∨
        strContains (country_norm t) "kz" = true)
    · rw [if_pos h1]
      by_cases h2 : cnt % 2 = 0
      · rw [if_pos h2]
        exact Or.inr (Or.inl rfl)
      · rw [if_neg h2]
        exact Or.inr (Or.inr rfl)
    · rw [if_neg h1]
      exact Or.inr (Or.inl rfl)
  · simp only [h]
    exact Or.inl (find_city_office_mem units _ off h)

/-- The effective office after escalation is the resolved office or the
escalation marker. -/
theorem after_escalation_office (pool : List (Nat × Manager)) (office0 : String)
    (ai : AIResult) (a b : String) :
    (after_escalation pool office0 ai a b).2 = "CAPITAL_ESCALATION" ∨
    (after_escalation pool office0 ai a b).2 = office0 := by
  unfold after_escalation
  split
  · exact Or.inl rfl
  · exact Or.inr rfl

theorem after_fallback_office (eng : Engine) (pool : List (Nat × Manager))
    (p : List (Nat × Manager) × String) : (after_fallback eng pool p).2 = p.2 := by
  unfold after_fallback
  split <;> rfl

/-- The effective office of a ticket is a city-matched unit, a canonical
capital office, or the escalation marker. -/
theorem final_candidates_office (eng : Engine) (st : RunState) (t : Ticket) :
    (final_candidates eng st t).2.1 ∈ eng.units ∨
    (final_candidates eng st t).2.1 = astana_office eng ∨
    (final_candidates eng st t).2.1 = almaty_office eng ∨
    (final_candidates eng st t).2.1 = "CAPITAL_ESCALATION" := by
  unfold final_candidates
  simp only [after_fallback_office]
  rcases after_escalation_office (indexedManagers st.managers)
      (get_office eng.units (astana_office eng) (almaty_office eng)
        st.unknown_loc_counter t).1
      (analyze_ticket t) (astana_office eng) (almaty_office eng) with h | h
  · rw [h]; exact Or.inr (Or.inr (Or.inr rfl))
  · rw [h]
    rcases get_office_cases eng.units (astana_office eng) (almaty_office eng)
        st.unknown_loc_counter t with h' | h' | h'
    · exact Or.inl h'
    · exact Or.inr (Or.inl h')
    · exact Or.inr (Or.inr (Or.inl h'))

/-- Python: the empty string is a substring of everything. -/
theorem strContains_empty_needle (s : String) : strContains s "" = true := by
  unfold strContains
  rcases s.data with _ | ⟨c, t⟩
  · rfl
  · simp [containsChars, startsWithChars]

/-- With an empty city, the city loop returns the first unit whose
stripped root is non-empty (Python: `"" in root` is always true). -/
theorem find_city_office_empty_city : ∀ units : List String,
    find_city_office units "" = units.find? (fun off => officeRoot off != "")
  | [] => rfl
  | off :: rest => by
    rw [List.find?_cons]
    by_cases h : officeRoot off = ""
    · have hb : (officeRoot off != "") = false := by simp [h]
      rw [hb]
      unfold find_city_office
      rw [if_neg (by simp [h])]
      exact find_city_office_empty_city rest
    · have hb : (officeRoot off != "") = true := by simp [h]
      rw [hb]
      unfold find_city_office
      rw [if_pos ⟨h, Or.inr (by rw [strContains_empty_needle])⟩]

/-- Every result row's office over a whole run is a unit, a canonical
capital office, or the escalation marker. -/
theorem distribute_office (eng : Engine) : ∀ (ts : List Ticket) (st : RunState),
    ∀ r ∈ (distribute eng st ts).1,
      r.office ∈ eng.units ∨ r.office = astana_office eng ∨
      r.office = almaty_office eng ∨ r.office = "CAPITAL_ESCALATION"
  | [], st, r, hr => by simp [distribute] at hr
  | t :: ts, st, r, hr => by
    simp only [distribute, List.mem_cons] at hr
    rcases hr with hr | hr
    · subst hr
      rw [step_ticket_office]
      exact final_candidates_office eng st t
    · exact distribute_office eng ts (step_ticket eng st t).1 r hr

/-! ## Concrete fixtures used by counterexamples and witnesses -/

/-- Two business units; the first one is not the Astana-class office. -/
def unitsC2 : List String := ["Офис Алматы", "Офис Астана"]

def engC2 : Engine := ⟨unitsC2, false⟩

/-- A domestic ticket whose city cell is the empty string. -/
def tC2 : Ticket := ⟨none, none, none, some "Казахстан", some ""⟩

/-- A unit list with no Astana-class unit at all. -/
def unitsC8 : List String := ["Офис Алматы"]

def engC8 : Engine := ⟨unitsC8, false⟩

/-- A domestic ticket whose city matches no unit. -/
def tC8 : Ticket := ⟨some "g1", none, none, some "Казахстан", some "москва"⟩

/-- A unit list containing both capital-class offices. -/
def unitsW : List String := ["Офис Астана", "Офис Алматы"]

def engW : Engine := ⟨unitsW, false⟩

/-! ## Claim C10 — segment bucketing -/

/-- C10: The segment bucket is pure substring containment on the
uppercased raw segment: `VIP` if it contains `"VIP"` anywhere (so
`"NON-VIP"` buckets as VIP), else `PRIORITY` if it contains
`"PRIORITY"`, else `MASS`; a missing segment cell defaults to `MASS`. -/
theorem C10_segment_bucket (t : Ticket) :
    ((analyze_ticket t).segment =
      if strContains (strUpper (t.segment.getD "MASS")) "VIP" = true then "VIP"
      else if strContains (strUpper (t.segment.getD "MASS")) "PRIORITY" = true then
        "PRIORITY"
      else "MASS") ∧
    (t.segment = some "NON-VIP" → (analyze_ticket t).segment = "VIP") ∧
    (t.segment = none → (analyze_ticket t).segment = "MASS") := by
  have e : (analyze_ticket t).segment =
      if strContains (strUpper (t.segment.getD "MASS")) "VIP" = true then "VIP"
      else if strContains (strUpper (t.segment.getD "MASS")) "PRIORITY" = true then
        "PRIORITY"
      else "MASS" := rfl
  refine ⟨e, ?_, ?_⟩
  · intro h
    rw [e, h]
    decide
  · intro h
    rw [e, h]
    decide

theorem C10_segment_bucket_witness :
    (analyze_ticket ⟨none, none, some "NON-VIP", none, none⟩).segment = "VIP" ∧
    (analyze_ticket ⟨none, none, none, none, none⟩).segment = "MASS" :=
  ⟨(C10_segment_bucket _).2.1 rfl, (C10_segment_bucket _).2.2 rfl⟩

/-! ## Claim C2 — empty location fields -/

/-- C2 counterexample: The claim says an empty city matches no
business unit and resolution falls through to the country branch (here:
the domestic default, the Astana-class office).  In the code
`city in root` is Python substring containment, and the empty string is
a substring of every root, so the empty-city ticket matches the *first*
unit (`"Офис Алматы"`), not the Astana-class office. -/
theorem C2_counterexample :
    get_office unitsC2 (astana_office engC2) (almaty_office engC2) 0 tC2 =
      ("Офис Алматы", 0) ∧
    astana_office engC2 = "Офис Астана" ∧
    ("Офис Алматы" : String) ≠ "Офис Астана" := by decide

/-- C2 amended: Empty inputs never raise (the resolver is total by
construction); an empty *country* indeed matches no domestic token and
falls through to the foreign alternation, but an empty *city* matches
the first business unit whose stripped root is non-empty, and only when
every root is empty does resolution reach the country branch. -/
theorem C2_amended (units : List String) (a b : String) (cnt : Nat) (t : Ticket)
    (hcity : t.city.getD "" = "") :
    (∀ u : String, units.find? (fun off => officeRoot off != "") = some u →
        get_office units a b cnt t = (u, cnt)) ∧
    (units.find? (fun off => officeRoot off != "") = none →
      t.country.getD "" = "" →
      get_office units a b cnt t = ((if cnt % 2 = 0 then a else b), cnt + 1)) := by
  have hcity' : strLower (t.city.getD "") = "" := by rw [hcity]; rfl
  have hfind : find_city_office units (strLower (t.city.getD "")) =
      units.find? (fun off => officeRoot off != "") := by
    rw [hcity']
    exact find_city_office_empty_city units
  constructor
  · intro u hu
    unfold get_office
    rw [hfind, hu]
  · intro hnone hcountry
    have hc : country_norm t = "" := by
      unfold country_norm
      rw [hcountry]
      rfl
    unfold get_office
    rw [hfind, hnone]
    simp only [hc]
    rw [if_pos (by decide)]

theorem C2_amended_witness :
    unitsC2.find? (fun off => officeRoot off != "") = some "Офис Алматы" ∧
    get_office unitsC2 (astana_office engC2) (almaty_office engC2) 0 tC2 =
      ("Офис Алматы", 0) :=
  ⟨by decide, (C2_amended unitsC2 (astana_office engC2) (almaty_office engC2)
      0 tC2 rfl).1 "Офис Алматы" (by decide)⟩

/-! ## Claim C8 — recorded offices reference real business units -/

/-- C8 counterexample: When no unit name contains the pattern
`"астан"`, `_find_canonical_office` fabricates the capitalized pattern
`"Астан"`, and a domestic ticket with no city match is recorded with
office `"Астан"`, which is neither an existing business unit nor the
escalation marker. -/
theorem C8_counterexample :
    (distribute engC8 (init_state []) [tC8]).1.map (fun r => r.office) = ["Астан"] ∧
    ("Астан" : String) ∉ engC8.units ∧
    ("Астан" : String) ≠ "CAPITAL_ESCALATION" := by decide

/-- C8 amended: Provided the canonical capital offices resolve to
real units (a unit containing `"астан"` and one containing `"алмат"`
exist), every recorded office over a whole run is an existing business
unit or the synthetic escalation marker — in particular the offices
produced by the foreign alternation and the domestic default. -/
theorem C8_amended (eng : Engine) (st : RunState) (ts : List Ticket)
    (ha : astana_office eng ∈ eng.units) (hb : almaty_office eng ∈ eng.units) :
    ∀ r ∈ (distribute eng st ts).1,
      r.office ∈ eng.units ∨ r.office = "CAPITAL_ESCALATION" := by
  intro r hr
  rcases distribute_office eng ts st r hr with h | h | h | h
  · exact Or.inl h
  · exact Or.inl (by rw [h]; exact ha)
  · exact Or.inl (by rw [h]; exact hb)
  · exact Or.inr h

theorem C8_amended_witness :
    (step_ticket engW (init_state []) tC8).2.office ∈ engW.units ∨
    (step_ticket engW (init_state []) tC8).2.office = "CAPITAL_ESCALATION" :=
  C8_amended engW (init_state []) [tC8] (by decide) (by decide)
    (step_ticket engW (init_state []) tC8).2 (List.mem_cons_self _ _)

/-! ## More fixtures: a single-office engine and an all-defaults ticket -/

/-- A ticket whose city matches the only unit and which passes every
gate (MASS segment, default intent, Russian language). -/
def tRR : Ticket := ⟨none, none, none, none, some "астана"⟩

def engRR : Engine := ⟨["Астана"], false⟩

/-- Same single-unit engine with fallback enabled. -/
def engF : Engine := ⟨["Астана"], true⟩

/-- A gate-free manager of the `"Астана"` office. -/
def mgrRR (n : String) (l : Int) : Manager := ⟨n, "", [], "Астана", l⟩

/-! ## Claim C4 — one result per ticket, in input order -/

theorem distribute_length (eng : Engine) : ∀ (ts : List Ticket) (st : RunState),
    (distribute eng st ts).1.length = ts.length
  | [], _ => rfl
  | t :: ts, st => by
    simp only [distribute, List.length_cons]
    exact congrArg Nat.succ (distribute_length eng ts (step_ticket eng st t).1)

theorem distribute_get (eng : Engine) :
    ∀ (ts : List Ticket) (st : RunState) (i : Nat) (t : Ticket),
    ts[i]? = some t →
    (distribute eng st ts).1[i]? =
      some (step_ticket eng (distribute eng st (ts.take i)).2 t).2
  | [], _, i, t, h => by simp at h
  | t0 :: ts, st, 0, t, h => by
    simp only [List.getElem?_cons_zero, Option.some.injEq] at h
    subst h
    simp [distribute]
  | t0 :: ts, st, i + 1, t, h => by
    simp only [List.getElem?_cons_succ] at h
    simp only [distribute, List.getElem?_cons_succ, List.take_succ_cons]
    exact distribute_get eng ts (step_ticket eng st t0).1 i t h

/-- C4: A run emits exactly one result per input ticket, and the
`i`-th result is the row produced by processing the `i`-th ticket (in
the state reached after the first `i` tickets) — results follow input
order. -/
theorem C4_one_result_per_ticket (eng : Engine) (st : RunState) (ts : List Ticket) :
    (distribute eng st ts).1.length = ts.length ∧
    ∀ (i : Nat) (t : Ticket), ts[i]? = some t →
      (distribute eng st ts).1[i]? =
        some (step_ticket eng (distribute eng st (ts.take i)).2 t).2 :=
  ⟨distribute_length eng ts st, fun i t h => distribute_get eng ts st i t h⟩

theorem C4_one_result_per_ticket_witness :
    (distribute engW (init_state []) [tC8]).1.length = 1 ∧
    (distribute engW (init_state []) [tC8]).1[0]? =
      some (step_ticket engW (distribute engW (init_state []) ([tC8].take 0)).2 tC8).2 :=
  ⟨(C4_one_result_per_ticket engW (init_state []) [tC8]).1,
   (C4_one_result_per_ticket engW (init_state []) [tC8]).2 0 tC8 rfl⟩

/-! ## Claim C5 — VIP escalation -/

/-- A VIP-bucketed classification (as produced for e.g. segment `"vip"`). -/
def aiVIP : AIResult := ⟨"Консультация", "RU", 10, "VIP"⟩

/-- A MASS-bucketed classification. -/
def aiMASS : AIResult := ⟨"Консультация", "RU", 3, "MASS"⟩

/-- C5: Escalation fires exactly when the bucket is VIP and the
pipeline output is empty: the candidate set is recomputed as all
managers of either capital office with skill `"VIP"` (office constraint
discarded), and the effective office becomes the synthetic marker
whether or not any capital candidate exists; a non-VIP ticket never
escalates, and a non-empty pipeline output never escalates. -/
theorem C5_escalation (pool : List (Nat × Manager)) (office0 : String)
    (ai : AIResult) (a b : String) :
    (ai.segment = "VIP" → pipeline_filter pool office0 ai = [] →
      after_escalation pool office0 ai a b =
        (escalation_pool pool a b, "CAPITAL_ESCALATION")) ∧
    (ai.segment ≠ "VIP" →
      after_escalation pool office0 ai a b =
        (pipeline_filter pool office0 ai, office0)) ∧
    (pipeline_filter pool office0 ai ≠ [] →
      after_escalation pool office0 ai a b =
        (pipeline_filter pool office0 ai, office0)) ∧
    (∀ p : Nat × Manager, p ∈ escalation_pool pool a b ↔
      p ∈ pool ∧ (p.2.office = a ∨ p.2.office = b) ∧
        p.2.skills_set.contains "VIP" = true) := by
  refine ⟨?_, ?_, ?_, ?_⟩
  · intro h1 h2
    unfold after_escalation
    rw [if_pos ⟨h1, h2⟩]
  · intro h1
    unfold after_escalation
    rw [if_neg (fun hc => h1 hc.1)]
  · intro h2
    unfold after_escalation
    rw [if_neg (fun hc => h2 hc.2)]
  · intro p
    simp only [escalation_pool, List.mem_filter, Bool.or_eq_true, beq_iff_eq,
      and_assoc]

theorem C5_escalation_witness :
    after_escalation [] "X" aiVIP "A" "B" =
      (escalation_pool [] "A" "B", "CAPITAL_ESCALATION") ∧
    after_escalation [] "X" aiMASS "A" "B" = (pipeline_filter [] "X" aiMASS, "X") ∧
    after_escalation [(0, mgrRR "A" 0)] "Астана" aiMASS "A" "B" =
      (pipeline_filter [(0, mgrRR "A" 0)] "Астана" aiMASS, "Астана") :=
  ⟨(C5_escalation [] "X" aiVIP "A" "B").1 rfl (by decide),
   (C5_escalation [] "X" aiMASS "A" "B").2.1 (by decide),
   (C5_escalation [(0, mgrRR "A" 0)] "Астана" aiMASS "A" "B").2.2.1 (by decide)⟩

/-! ## Claim C6 — fallback mode -/

/-- C6: With fallback enabled, an empty candidate set becomes the
full unfiltered pool of the effective office (membership requires only
the office match — all gates ignored); with fallback disabled nothing
changes, and a ticket whose candidate set stays empty is recorded
`"UNASSIGNED"` with no manager mutated. -/
theorem C6_fallback (eng : Engine) (pool subset : List (Nat × Manager))
    (office : String) (st : RunState) (t : Ticket) :
    (eng.enable_fallback = true →
      after_fallback eng pool ([], office) = (office_pool pool office, office)) ∧
    (∀ p : Nat × Manager,
      p ∈ office_pool pool office ↔ p ∈ pool ∧ p.2.office = office) ∧
    (subset ≠ [] → after_fallback eng pool (subset, office) = (subset, office)) ∧
    (eng.enable_fallback = false →
      after_fallback eng pool (subset, office) = (subset, office)) ∧
    (eng.enable_fallback = false → (final_candidates eng st t).1 = [] →
      (step_ticket eng st t).2.manager = "UNASSIGNED" ∧
      (step_ticket eng st t).1.managers = st.managers) := by
  refine ⟨?_, ?_, ?_, ?_, ?_⟩
  · intro h
    unfold after_fallback
    rw [if_pos ⟨rfl, h⟩]
  · intro p
    simp only [office_pool, List.mem_filter, beq_iff_eq]
  · intro h
    unfold after_fallback
    rw [if_neg (fun hc => h hc.1)]
  · intro h
    unfold after_fallback
    rw [if_neg (fun hc => absurd hc.2 (by rw [h]; exact Bool.false_ne_true))]
  · intro _ hempty
    have hsel : select_manager st.rr_counters (ticket_key eng st t)
        (final_candidates eng st t).1 = none :=
      (select_manager_eq_none_iff _ _ _).mpr hempty
    rw [step_ticket_of_none eng st t hsel]
    exact ⟨rfl, rfl⟩

theorem C6_fallback_witness :
    after_fallback engF [(0, mgrRR "A" 0)] ([], "Астана") =
      (office_pool [(0, mgrRR "A" 0)] "Астана", "Астана") ∧
    after_fallback engC2 [(0, mgrRR "A" 0)] ([(0, mgrRR "A" 0)], "X") =
      ([(0, mgrRR "A" 0)], "X") ∧
    ((step_ticket engC2 (init_state []) tC2).2.manager = "UNASSIGNED" ∧
      (step_ticket engC2 (init_state []) tC2).1.managers =
        (init_state [] : RunState).managers) :=
  ⟨(C6_fallback engF [(0, mgrRR "A" 0)] [] "Астана" (init_state []) tC2).1 rfl,
   (C6_fallback engC2 [(0, mgrRR "A" 0)] [(0, mgrRR "A" 0)] "X"
      (init_state []) tC2).2.2.1 (by decide),
   (C6_fallback engC2 [] [] "X" (init_state []) tC2).2.2.2.2 rfl (by decide)⟩

/-! ## Claim C9 — empty candidate set touches nothing -/

/-- C9: A ticket whose final candidate set is empty is recorded with
the `"UNASSIGNED"` sentinel, and neither the manager loads nor the
selector's round-robin counters are modified.  (The office resolver's
separate two-way alternation counter is not part of `rr_counters`.) -/
theorem C9_unassigned_frame (eng : Engine) (st : RunState) (t : Ticket)
    (h : (final_candidates eng st t).1 = []) :
    (step_ticket eng st t).2.manager = "UNASSIGNED" ∧
    (step_ticket eng st t).1.managers = st.managers ∧
    (step_ticket eng st t).1.rr_counters = st.rr_counters := by
  have hsel : select_manager st.rr_counters (ticket_key eng st t)
      (final_candidates eng st t).1 = none :=
    (select_manager_eq_none_iff _ _ _).mpr h
  rw [step_ticket_of_none eng st t hsel]
  exact ⟨rfl, rfl, rfl⟩

/-! ## Claim C3 — the selector -/

theorem list_getD_get? {α : Type} :
    ∀ (l : List α) (n : Nat) (d : α), n < l.length → l[n]? = some (l.getD n d)
  | _ :: _, 0, _, _ => by simp
  | a :: t, n + 1, d, h => by
    simpa [List.getD_cons_succ] using list_getD_get? t n d (Nat.lt_of_succ_lt_succ h)
  | [], _, _, h => absurd h (by simp)

/-- C3: For a non-empty candidate set: sort by load then name (the
output is a `(load, name)`-ordered permutation of the candidates), take
the first two entries, select the one at index `counter mod size`
(counter defaulting to 0), store `counter + 1` back under the bucket
key, record the selected manager's name, and increment exactly that
manager's load by one in the threaded state (leaving all others
untouched). -/
theorem C3_selector (eng : Engine) (st : RunState) (t : Ticket)
    (hne : (final_candidates eng st t).1 ≠ []) :
    ∃ sel : Nat × Manager,
      ((sort_cands (final_candidates eng st t).1).take 2)[
          rr_get st.rr_counters (ticket_key eng st t) %
          ((sort_cands (final_candidates eng st t).1).take 2).length]? = some sel ∧
      (step_ticket eng st t).2.manager = sel.2.name ∧
      rr_get (step_ticket eng st t).1.rr_counters (ticket_key eng st t) =
        rr_get st.rr_counters (ticket_key eng st t) + 1 ∧
      st.managers[sel.1]? = some sel.2 ∧
      (step_ticket eng st t).1.managers[sel.1]? =
        some { sel.2 with load := sel.2.load + 1 } ∧
      (∀ j : Nat, j ≠ sel.1 →
        (step_ticket eng st t).1.managers[j]? = st.managers[j]?) ∧
      (sort_cands (final_candidates eng st t).1).Perm (final_candidates eng st t).1 ∧
      List.Pairwise (fun a b => ¬ candLtP b a)
        (sort_cands (final_candidates eng st t).1) := by
  rcases hs : sort_cands (final_candidates eng st t).1 with _ | ⟨m, rest⟩
  · exact absurd ((sort_cands_eq_nil_iff _).mp hs) hne
  · have htake : List.take 2 (m :: rest) = m :: List.take 1 rest := rfl
    have hlenpos : 0 < (m :: rest.take 1).length := Nat.succ_pos _
    have hmod : rr_get st.rr_counters (ticket_key eng st t) %
        (m :: rest.take 1).length < (m :: rest.take 1).length :=
      Nat.mod_lt _ hlenpos
    have hget : (m :: rest.take 1)[rr_get st.rr_counters (ticket_key eng st t) %
        (m :: rest.take 1).length]? =
        some ((m :: rest.take 1).getD (rr_get st.rr_counters (ticket_key eng st t) %
          (m :: rest.take 1).length) m) :=
      list_getD_get? _ _ m hmod
    have hsel : select_manager st.rr_counters (ticket_key eng st t)
        (final_candidates eng st t).1 =
        some ((m :: rest.take 1).getD (rr_get st.rr_counters (ticket_key eng st t) %
          (m :: rest.take 1).length) m) := by
      unfold select_manager
      rw [hs]
    have hstep := step_ticket_of_some eng st t _ hsel
    have hmem := select_manager_mem hsel
    have hcoh := final_candidates_coherent eng st t _ hmem
    refine ⟨_, ?_, ?_, ?_, hcoh, ?_, ?_, ?_, ?_⟩
    · rw [htake]
      exact hget
    · rw [hstep]
    · rw [hstep]
      exact rr_get_set_self st.rr_counters (ticket_key eng st t) _
    · rw [hstep]
      exact bump_load_get_self st.managers _ _ hcoh
    · intro j hj
      rw [hstep]
      exact bump_load_get_ne st.managers _ j hj
    · rw [← hs]
      exact sort_cands_perm _
    · rw [← hs]
      exact sort_cands_sorted _

/-- Run-scoped fixture: two tied managers `"A" < "B"` in the only office. -/
def stRR2 : RunState := init_state [mgrRR "A" 0, mgrRR "B" 0]

theorem C3_selector_witness :
    ∃ sel : Nat × Manager,
      ((sort_cands (final_candidates engRR stRR2 tRR).1).take 2)[
          rr_get stRR2.rr_counters (ticket_key engRR stRR2 tRR) %
          ((sort_cands (final_candidates engRR stRR2 tRR).1).take 2).length]? =
            some sel ∧
      (step_ticket engRR stRR2 tRR).2.manager = sel.2.name ∧
      rr_get (step_ticket engRR stRR2 tRR).1.rr_counters
          (ticket_key engRR stRR2 tRR) =
        rr_get stRR2.rr_counters (ticket_key engRR stRR2 tRR) + 1 ∧
      stRR2.managers[sel.1]? = some sel.2 ∧
      (step_ticket engRR stRR2 tRR).1.managers[sel.1]? =
        some { sel.2 with load := sel.2.load + 1 } ∧
      (∀ j : Nat, j ≠ sel.1 →
        (step_ticket engRR stRR2 tRR).1.managers[j]? = stRR2.managers[j]?) ∧
      (sort_cands (final_candidates engRR stRR2 tRR).1).Perm
        (final_candidates engRR stRR2 tRR).1 ∧
      List.Pairwise (fun a b => ¬ candLtP b a)
        (sort_cands (final_candidates engRR stRR2 tRR).1) :=
  C3_selector engRR stRR2 tRR (by decide)

/-! ## Claim C1 — round-robin behaviour on a tied two-candidate bucket

The fixture: engine `engRR` (one unit `"Астана"`), ticket `tRR` (city
matches the unit, MASS segment, default intent, Russian), and two
managers `mgrRR nA a`, `mgrRR nB b` in that office.  Every same-key
ticket reaches the selector with exactly those two candidates. -/

/-- The round-robin bucket key of `tRR` under `engRR`. -/
def keyRR : RRKey := ("Астана", "MASS", "Консультация", "RU")

/-- The result row `tRR` produces when assigned to manager `n`. -/
def resRR (n : String) : AssignmentResult :=
  ⟨"N/A", "Консультация", "RU", 3, "Астана", n⟩

/-- A run state with exactly the two fixture managers. -/
def stRR (nA nB : String) (a b : Int) (rr : List (RRKey × Nat)) (u : Nat) :
    RunState :=
  ⟨[mgrRR nA a, mgrRR nB b], rr, u⟩

theorem fcRR (nA nB : String) (a b : Int) (rr : List (RRKey × Nat)) (u : Nat) :
    final_candidates engRR (stRR nA nB a b rr u) tRR =
      ([(0, mgrRR nA a), (1, mgrRR nB b)], "Астана", u) := rfl

theorem keyRR_eq (nA nB : String) (a b : Int) (rr : List (RRKey × Nat)) (u : Nat) :
    ticket_key engRR (stRR nA nB a b rr u) tRR = keyRR := rfl

theorem sortRR_lt (nA nB : String) (a b : Int) (h : b < a) :
    sort_cands [(0, mgrRR nA a), (1, mgrRR nB b)] =
      [(1, mgrRR nB b), (0, mgrRR nA a)] := by
  have hc : cand_lt (1, mgrRR nB b) (0, mgrRR nA a) = true := by
    simp only [cand_lt, mgrRR, decide_eq_true_eq]
    exact Or.inl h
  simp [sort_cands, insert_cand, hc]

theorem sortRR_tie (nA nB : String) (a : Int)
    (hname : chars_lt nB.data nA.data = false) :
    sort_cands [(0, mgrRR nA a), (1, mgrRR nB a)] =
      [(0, mgrRR nA a), (1, mgrRR nB a)] := by
  have hc : cand_lt (1, mgrRR nB a) (0, mgrRR nA a) = false := by
    simp only [cand_lt, mgrRR, decide_eq_false_iff_not]
    rintro (h | ⟨_, h⟩)
    · exact absurd h (lt_irrefl a)
    · exact (Bool.eq_false_iff.mp hname) h
  simp [sort_cands, insert_cand, hc]

/-- Tied loads, even counter: the lower-named candidate is selected. -/
theorem stepRR_tie_even (nA nB : String) (a : Int) (rr : List (RRKey × Nat))
    (u : Nat) (hname : chars_lt nB.data nA.data = false)
    (hmod : rr_get rr keyRR % 2 = 0) :
    step_ticket engRR (stRR nA nB a a rr u) tRR =
      (⟨[mgrRR nA (a + 1), mgrRR nB a],
        rr_set rr keyRR (rr_get rr keyRR + 1), u⟩, resRR nA) := by
  have hsel : select_manager rr keyRR [(0, mgrRR nA a), (1, mgrRR nB a)] =
      some (0, mgrRR nA a) := by
    unfold select_manager
    rw [sortRR_tie nA nB a hname]
    simp [hmod]
  have hsel' : select_manager (stRR nA nB a a rr u).rr_counters
      (ticket_key engRR (stRR nA nB a a rr u) tRR)
      (final_candidates engRR (stRR nA nB a a rr u) tRR).1 =
      some (0, mgrRR nA a) := by
    rw [keyRR_eq, fcRR]
    exact hsel
  rw [step_ticket_of_some engRR (stRR nA nB a a rr u) tRR (0, mgrRR nA a) hsel']
  rfl

/-- Second candidate strictly lighter, even counter: it is selected. -/
theorem stepRR_lt_even (nA nB : String) (a b : Int) (rr : List (RRKey × Nat))
    (u : Nat) (hlt : b < a) (hmod : rr_get rr keyRR % 2 = 0) :
    step_ticket engRR (stRR nA nB a b rr u) tRR =
      (⟨[mgrRR nA a, mgrRR nB (b + 1)],
        rr_set rr keyRR (rr_get rr keyRR + 1), u⟩, resRR nB) := by
  have hsel : select_manager rr keyRR [(0, mgrRR nA a), (1, mgrRR nB b)] =
      some (1, mgrRR nB b) := by
    unfold select_manager
    rw [sortRR_lt nA nB a b hlt]
    simp [hmod]
  have hsel' : select_manager (stRR nA nB a b rr u).rr_counters
      (ticket_key engRR (stRR nA nB a b rr u) tRR)
      (final_candidates engRR (stRR nA nB a b rr u) tRR).1 =
      some (1, mgrRR nB b) := by
    rw [keyRR_eq, fcRR]
    exact hsel
  rw [step_ticket_of_some engRR (stRR nA nB a b rr u) tRR (1, mgrRR nB b) hsel']
  rfl

/-- Second candidate strictly lighter, odd counter: the counter points
past it, so the *heavier* first-sorted-out candidate is selected. -/
theorem stepRR_lt_odd (nA nB : String) (a b : Int) (rr : List (RRKey × Nat))
    (u : Nat) (hlt : b < a) (hmod : rr_get rr keyRR % 2 = 1) :
    step_ticket engRR (stRR nA nB a b rr u) tRR =
      (⟨[mgrRR nA (a + 1), mgrRR nB b],
        rr_set rr keyRR (rr_get rr keyRR + 1), u⟩, resRR nA) := by
  have hsel : select_manager rr keyRR [(0, mgrRR nA a), (1, mgrRR nB b)] =
      some (0, mgrRR nA a) := by
    unfold select_manager
    rw [sortRR_lt nA nB a b hlt]
    simp [hmod]
  have hsel' : select_manager (stRR nA nB a b rr u).rr_counters
      (ticket_key engRR (stRR nA nB a b rr u) tRR)
      (final_candidates engRR (stRR nA nB a b rr u) tRR).1 =
      some (0, mgrRR nA a) := by
    rw [keyRR_eq, fcRR]
    exact hsel
  rw [step_ticket_of_some engRR (stRR nA nB a b rr u) tRR (0, mgrRR nA a) hsel']
  rfl

/-- Steady state: once the first candidate is two loads ahead and the
counter is even, same-key tickets alternate `nB, nA, nB, nA, …`. -/
theorem runRR_P : ∀ (n : Nat) (nA nB : String) (b : Int)
    (rr : List (RRKey × Nat)) (u : Nat),
    rr_get rr keyRR % 2 = 0 →
    ∀ k : Nat, k < n →
      ((distribute engRR (stRR nA nB (b + 2) b rr u)
          (List.replicate n tRR)).1)[k]? =
        some (resRR (if k % 2 = 0 then nB else nA))
  | 0, nA, nB, b, rr, u, hmod, k, hk => absurd hk (Nat.not_lt_zero k)
  | 1, nA, nB, b, rr, u, hmod, k, hk => by
    have hk0 : k = 0 := by omega
    subst hk0
    have h1 := stepRR_lt_even nA nB (b + 2) b rr u (by omega) hmod
    simp only [List.replicate, distribute, h1]
    simp
  | n + 2, nA, nB, b, rr, u, hmod, k, hk => by
    have h1 := stepRR_lt_even nA nB (b + 2) b rr u (by omega) hmod
    have hget1 : rr_get (rr_set rr keyRR (rr_get rr keyRR + 1)) keyRR =
        rr_get rr keyRR + 1 := rr_get_set_self rr keyRR _
    have hmod2 : rr_get (rr_set rr keyRR (rr_get rr keyRR + 1)) keyRR % 2 = 1 := by
      rw [hget1]; omega
    have h2 := stepRR_lt_odd nA nB (b + 2) (b + 1)
      (rr_set rr keyRR (rr_get rr keyRR + 1)) u (by omega) hmod2
    have hget2 : rr_get (rr_set (rr_set rr keyRR (rr_get rr keyRR + 1)) keyRR
        (rr_get (rr_set rr keyRR (rr_get rr keyRR + 1)) keyRR + 1)) keyRR =
        rr_get rr keyRR + 2 := by
      rw [rr_get_set_self, hget1]
    have hmod3 : rr_get (rr_set (rr_set rr keyRR (rr_get rr keyRR + 1)) keyRR
        (rr_get (rr_set rr keyRR (rr_get rr keyRR + 1)) keyRR + 1)) keyRR % 2 = 0 := by
      rw [hget2]; omega
    have hIH := runRR_P n nA nB (b + 1)
      (rr_set (rr_set rr keyRR (rr_get rr keyRR + 1)) keyRR
        (rr_get (rr_set rr keyRR (rr_get rr keyRR + 1)) keyRR + 1)) u hmod3
    have hstate : (⟨[mgrRR nA (b + 2), mgrRR nB (b + 1)],
        rr_set rr keyRR (rr_get rr keyRR + 1), u⟩ : RunState) =
        stRR nA nB (b + 2) (b + 1) (rr_set rr keyRR (rr_get rr keyRR + 1)) u := rfl
    have hstate2 : (⟨[mgrRR nA (b + 2 + 1), mgrRR nB (b + 1)],
        rr_set (rr_set rr keyRR (rr_get rr keyRR + 1)) keyRR
          (rr_get (rr_set rr keyRR (rr_get rr keyRR + 1)) keyRR + 1), u⟩ : RunState) =
        stRR nA nB (b + 1 + 2) (b + 1)
          (rr_set (rr_set rr keyRR (rr_get rr keyRR + 1)) keyRR
            (rr_get (rr_set rr keyRR (rr_get rr keyRR + 1)) keyRR + 1)) u := by
      have harith : b + 2 + 1 = b + 1 + 2 := by ring
      rw [stRR, harith]
    simp only [List.replicate, distribute, h1, hstate, h2, hstate2]
    rcases k with _ | _ | j
    · rfl
    · simp
    · have hj : j < n := by omega
      have := hIH j hj
      simp only [List.getElem?_cons_succ]
      rw [this]
      have hmodeq : (j + 1 + 1) % 2 = j % 2 := by omega
      rw [hmodeq]

/-- C1 counterexample:  Two managers `"A" < "B"` with tied loads in
the same bucket: the first *two* same-key tickets are both assigned to
`"A"` — the second ticket does not go to the other candidate, so
consecutive tickets do not alternate as claimed. -/
theorem C1_counterexample :
    (distribute engRR (init_state [mgrRR "A" 0, mgrRR "B" 0]) [tRR, tRR]).1.map
      (fun r => r.manager) = ["A", "A"] ∧ ("A" : String) ≠ "B" := by decide

/-- C1 amended:  For a fixed bucket key whose pool is exactly two
managers with tied loads and distinct names: the first two same-key
tickets both go to the lower-named candidate, and from the third ticket
on assignments alternate (higher-named, lower-named, …).  Equivalently,
ticket `k` (0-based) goes to the lower-named candidate iff `k = 0` or
`k` is odd. -/
theorem C1_amended (nA nB : String) (l : Int) (n : Nat)
    (hname : chars_lt nA.data nB.data = true) :
    ∀ k : Nat, k < n →
      ((distribute engRR (init_state [mgrRR nA l, mgrRR nB l])
          (List.replicate n tRR)).1)[k]? =
        some (resRR (if k = 0 ∨ k % 2 = 1 then nA else nB)) := by
  have hinit : init_state [mgrRR nA l, mgrRR nB l] = stRR nA nB l l [] 0 := rfl
  have h1 := stepRR_tie_even nA nB l [] 0 (chars_lt_asymm _ _ hname) (by decide)
  intro k hk
  rcases n with _ | _ | n
  · omega
  · have hk0 : k = 0 := by omega
    subst hk0
    simp only [List.replicate, distribute, hinit, h1]
    rfl
  · have hget1 : rr_get (rr_set [] keyRR (rr_get [] keyRR + 1)) keyRR = 1 :=
      rr_get_set_self [] keyRR _
    have hmod2 : rr_get (rr_set [] keyRR (rr_get [] keyRR + 1)) keyRR % 2 = 1 := by
      rw [hget1]
    have h2 := stepRR_lt_odd nA nB (l + 1) l
      (rr_set [] keyRR (rr_get [] keyRR + 1)) 0 (by omega) hmod2
    have hstate1 : (⟨[mgrRR nA (l + 1), mgrRR nB l],
        rr_set [] keyRR (rr_get [] keyRR + 1), 0⟩ : RunState) =
        stRR nA nB (l + 1) l (rr_set [] keyRR (rr_get [] keyRR + 1)) 0 := rfl
    have hget2 : rr_get (rr_set (rr_set [] keyRR (rr_get [] keyRR + 1)) keyRR
        (rr_get (rr_set [] keyRR (rr_get [] keyRR + 1)) keyRR + 1)) keyRR = 2 := by
      rw [rr_get_set_self, hget1]
    have hmod3 : rr_get (rr_set (rr_set [] keyRR (rr_get [] keyRR + 1)) keyRR
        (rr_get (rr_set [] keyRR (rr_get [] keyRR + 1)) keyRR + 1)) keyRR % 2 = 0 := by
      rw [hget2]
    have hstate2 : (⟨[mgrRR nA (l + 1 + 1), mgrRR nB l],
        rr_set (rr_set [] keyRR (rr_get [] keyRR + 1)) keyRR
          (rr_get (rr_set [] keyRR (rr_get [] keyRR + 1)) keyRR + 1), 0⟩ : RunState) =
        stRR nA nB (l + 2) l
          (rr_set (rr_set [] keyRR (rr_get [] keyRR + 1)) keyRR
            (rr_get (rr_set [] keyRR (rr_get [] keyRR + 1)) keyRR + 1)) 0 := by
      have harith : l + 1 + 1 = l + 2 := by ring
      rw [stRR, harith]
    have hP := runRR_P n nA nB l
      (rr_set (rr_set [] keyRR (rr_get [] keyRR + 1)) keyRR
        (rr_get (rr_set [] keyRR (rr_get [] keyRR + 1)) keyRR + 1)) 0 hmod3
    simp only [List.replicate, distribute, hinit, h1, hstate1, h2, hstate2]
    rcases k with _ | _ | j
    · rfl
    · simp
    · have hj : j < n := by omega
      have hPj := hP j hj
      simp only [List.getElem?_cons_succ]
      rw [hPj]
      rcases Nat.mod_two_eq_zero_or_one j with hm | hm
      · rw [if_pos hm, if_neg (by omega)]
      · rw [if_neg (by omega), if_pos (by omega)]

theorem C1_amended_witness :
    ((distribute engRR (init_state [mgrRR "A" 0, mgrRR "B" 0])
        (List.replicate 4 tRR)).1)[2]? =
      some (resRR (if 2 = 0 ∨ 2 % 2 = 1 then "A" else "B")) :=
  C1_amended "A" "B" 0 4 (by decide) 2 (by omega)

/-! ## Claim C7 — load conservation -/

theorem list_mem_of_get {α : Type} : ∀ (l : List α) (i : Nat) (a : α),
    l[i]? = some a → a ∈ l
  | b :: t, 0, a, h => by
    simp only [List.getElem?_cons_zero, Option.some.injEq] at h
    subst h
    exact List.mem_cons_self b t
  | b :: t, i + 1, a, h =>
    List.mem_cons_of_mem b (list_mem_of_get t i a (by simpa using h))
  | [], i, a, h => by simp at h

/-- Distinct positions in a name-wise pairwise-distinct pool hold
managers with different names. -/
theorem pairwise_names_ne {l : List Manager}
    (h : List.Pairwise (fun a b => a.name ≠ b.name) l) {i j : Nat} {a b : Manager}
    (hij : i ≠ j) (ha : l[i]? = some a) (hb : l[j]? = some b) : a.name ≠ b.name := by
  have hi : i < l.length := by
    by_contra hlt
    rw [List.getElem?_eq_none (by omega)] at ha
    cases ha
  have hj : j < l.length := by
    by_contra hlt
    rw [List.getElem?_eq_none (by omega)] at hb
    cases hb
  have hga : l[i] = a := by
    rw [List.getElem?_eq_getElem hi] at ha
    exact Option.some.inj ha
  have hgb : l[j] = b := by
    rw [List.getElem?_eq_getElem hj] at hb
    exact Option.some.inj hb
  have hp := List.pairwise_iff_getElem.mp h
  rcases Nat.lt_or_ge i j with hlt | hge
  · have := hp i j hi hj hlt
    rw [hga, hgb] at this
    exact this
  · have hlt : j < i := by omega
    have := hp j i hj hi hlt
    rw [hga, hgb] at this
    exact this.symm

theorem bump_load_map_name : ∀ (l : List Manager) (i : Nat),
    (bump_load l i).map Manager.name = l.map Manager.name
  | [], _ => rfl
  | _ :: _, 0 => rfl
  | m :: ms, i + 1 => by
    simp only [bump_load, List.map_cons, bump_load_map_name ms i]

/-- A `distribute` iteration never renames, adds or removes managers. -/
theorem step_ticket_map_name (eng : Engine) (st : RunState) (t : Ticket) :
    (step_ticket eng st t).1.managers.map Manager.name =
      st.managers.map Manager.name := by
  rcases h : select_manager st.rr_counters (ticket_key eng st t)
      (final_candidates eng st t).1 with _ | sel
  · rw [step_ticket_of_none eng st t h]
  · rw [step_ticket_of_some eng st t sel h]
    exact bump_load_map_name st.managers sel.1

/-- Number of result rows naming a given manager. -/
def count_assigned (rs : List AssignmentResult) (n : String) : Nat :=
  (rs.filter (fun r => r.manager == n)).length

theorem count_assigned_cons (r : AssignmentResult) (rs : List AssignmentResult)
    (n : String) :
    count_assigned (r :: rs) n =
      (if r.manager = n then 1 else 0) + count_assigned rs n := by
  unfold count_assigned
  by_cases h : r.manager = n
  · rw [List.filter_cons_of_pos (by simp [h]), if_pos h]
    simp only [List.length_cons]
    omega
  · rw [List.filter_cons_of_neg (by simp [h]), if_neg h]
    omega

/-- One iteration changes exactly the assigned manager's load, by one. -/
theorem step_ticket_load (eng : Engine) (st : RunState) (t : Ticket)
    (hdist : List.Pairwise (fun a b => a.name ≠ b.name) st.managers)
    (hun : ∀ m ∈ st.managers, m.name ≠ "UNASSIGNED")
    (j : Nat) (m : Manager) (hm : st.managers[j]? = some m) :
    ∃ m' : Manager, (step_ticket eng st t).1.managers[j]? = some m' ∧
      m'.name = m.name ∧
      m'.load = m.load +
        (if (step_ticket eng st t).2.manager = m.name then 1 else 0) := by
  rcases hsel : select_manager st.rr_counters (ticket_key eng st t)
      (final_candidates eng st t).1 with _ | sel
  · have hne : ("UNASSIGNED" : String) ≠ m.name :=
      fun he => hun m (list_mem_of_get _ _ _ hm) he.symm
    rw [step_ticket_of_none eng st t hsel]
    refine ⟨m, hm, rfl, ?_⟩
    dsimp only
    rw [if_neg hne]
    omega
  · have hmem := select_manager_mem hsel
    have hcoh := final_candidates_coherent eng st t sel hmem
    rw [step_ticket_of_some eng st t sel hsel]
    dsimp only
    by_cases hji : j = sel.1
    · subst hji
      have hms : m = sel.2 := by
        rw [hm] at hcoh
        exact Option.some.inj hcoh

      refine ⟨{ m with load := m.load + 1 }, bump_load_get_self st.managers sel.1 m hm,
        rfl, ?_⟩
      rw [← hms, if_pos rfl]
    · have hnames : sel.2.name ≠ m.name :=
        pairwise_names_ne hdist (fun e => hji e.symm) hcoh hm
      refine ⟨m, ?_, rfl, ?_⟩
      · rw [bump_load_get_ne st.managers sel.1 j hji]
        exact hm
      · rw [if_neg hnames]
        omega

/-- Load conservation over a whole run: final load is initial load plus
the number of result rows naming that manager. -/
theorem distribute_load (eng : Engine) : ∀ (ts : List Ticket) (st : RunState),
    List.Pairwise (fun a b => a.name ≠ b.name) st.managers →
    (∀ m ∈ st.managers, m.name ≠ "UNASSIGNED") →
    ∀ (j : Nat) (m : Manager), st.managers[j]? = some m →
    ∃ m' : Manager, (distribute eng st ts).2.managers[j]? = some m' ∧
      m'.name = m.name ∧
      m'.load = m.load + (count_assigned (distribute eng st ts).1 m.name : Int)
  | [], st, _, _, j, m, hm => ⟨m, hm, rfl, by simp [distribute, count_assigned]⟩
  | t :: ts, st, hdist, hun, j, m, hm => by
    obtain ⟨m₁, hm₁, hname₁, hload₁⟩ := step_ticket_load eng st t hdist hun j m hm
    have hmap := step_ticket_map_name eng st t
    have hdist₁ : List.Pairwise (fun a b => a.name ≠ b.name)
        (step_ticket eng st t).1.managers := by
      have h2 : List.Pairwise Ne ((step_ticket eng st t).1.managers.map Manager.name) := by
        rw [hmap]
        exact List.pairwise_map.mpr hdist
      exact List.pairwise_map.mp h2
    have hun₁ : ∀ m' ∈ (step_ticket eng st t).1.managers, m'.name ≠ "UNASSIGNED" := by
      intro m' hm'
      have hmm : m'.name ∈ (step_ticket eng st t).1.managers.map Manager.name :=
        List.mem_map_of_mem Manager.name hm'
      rw [hmap] at hmm
      obtain ⟨m₀, hm₀, he⟩ := List.mem_map.mp hmm
      rw [← he]
      exact hun m₀ hm₀
    obtain ⟨m', hm', hname', hload'⟩ :=
      distribute_load eng ts (step_ticket eng st t).1 hdist₁ hun₁ j m₁ hm₁
    refine ⟨m', ?_, by rw [hname', hname₁], ?_⟩
    · simp only [distribute]
      exact hm'
    · simp only [distribute]
      rw [count_assigned_cons]
      rw [hname₁] at hload'
      by_cases hr : (step_ticket eng st t).2.manager = m.name
      · rw [if_pos hr] at hload₁
        rw [if_pos hr]
        rw [hload', hload₁]
        push_cast
        ring
      · rw [if_neg hr] at hload₁
        rw [if_neg hr]
        rw [hload', hload₁]
        push_cast
        ring

/-- One iteration never decreases any manager's load. -/
theorem step_ticket_load_mono (eng : Engine) (st : RunState) (t : Ticket)
    (j : Nat) (m : Manager) (hm : st.managers[j]? = some m) :
    ∃ m' : Manager, (step_ticket eng st t).1.managers[j]? = some m' ∧
      m.load ≤ m'.load := by
  rcases hsel : select_manager st.rr_counters (ticket_key eng st t)
      (final_candidates eng st t).1 with _ | sel
  · rw [step_ticket_of_none eng st t hsel]
    exact ⟨m, hm, le_refl _⟩
  · rw [step_ticket_of_some eng st t sel hsel]
    dsimp only
    by_cases hji : j = sel.1
    · subst hji
      refine ⟨{ m with load := m.load + 1 },
        bump_load_get_self st.managers sel.1 m hm, ?_⟩
      change m.load ≤ m.load + 1
      omega
    · refine ⟨m, ?_, le_refl _⟩
      rw [bump_load_get_ne st.managers sel.1 j hji]
      exact hm

theorem distribute_load_mono (eng : Engine) :
    ∀ (ts : List Ticket) (st : RunState) (j : Nat) (m : Manager),
    st.managers[j]? = some m →
    ∃ m' : Manager, (distribute eng st ts).2.managers[j]? = some m' ∧
      m.load ≤ m'.load
  | [], _, j, m, hm => ⟨m, hm, le_refl _⟩
  | t :: ts, st, j, m, hm => by
    obtain ⟨m₁, hm₁, hle₁⟩ := step_ticket_load_mono eng st t j m hm
    obtain ⟨m', hm', hle'⟩ :=
      distribute_load_mono eng ts (step_ticket eng st t).1 j m₁ hm₁
    refine ⟨m', ?_, le_trans hle₁ hle'⟩
    simp only [distribute]
    exact hm'

/-- C7: With pairwise-distinct manager names none of which is the
sentinel: after a run each manager's load equals its initial load plus
the number of tickets assigned to it (counted by result rows naming it),
and at every prefix of the run no manager's load has decreased. -/
theorem C7_load_conservation (eng : Engine) (st : RunState) (ts : List Ticket)
    (hdist : List.Pairwise (fun a b => a.name ≠ b.name) st.managers)
    (hun : ∀ m ∈ st.managers, m.name ≠ "UNASSIGNED") :
    (∀ (j : Nat) (m : Manager), st.managers[j]? = some m →
      ∃ m' : Manager, (distribute eng st ts).2.managers[j]? = some m' ∧
        m'.name = m.name ∧
        m'.load = m.load + (count_assigned (distribute eng st ts).1 m.name : Int)) ∧
    (∀ (i j : Nat) (m : Manager), st.managers[j]? = some m →
      ∃ m' : Manager, (distribute eng st (ts.take i)).2.managers[j]? = some m' ∧
        m.load ≤ m'.load) :=
  ⟨fun j m hm => distribute_load eng ts st hdist hun j m hm,
   fun i j m hm => distribute_load_mono eng (ts.take i) st j m hm⟩

theorem C7_load_conservation_witness :
    ∃ m' : Manager,
      (distribute engRR stRR2 (List.replicate 3 tRR)).2.managers[0]? = some m' ∧
      m'.name = (mgrRR "A" 0).name ∧
      m'.load = (mgrRR "A" 0).load +
        (count_assigned (distribute engRR stRR2 (List.replicate 3 tRR)).1
          (mgrRR "A" 0).name : Int) :=
  (C7_load_conservation engRR stRR2 (List.replicate 3 tRR)
    (by decide) (by decide)).1 0 (mgrRR "A" 0) rfl

theorem C9_unassigned_frame_witness :
    (step_ticket engC8 (init_state []) tC8).2.manager = "UNASSIGNED" ∧
    (step_ticket engC8 (init_state []) tC8).1.managers =
      (init_state [] : RunState).managers ∧
    (step_ticket engC8 (init_state []) tC8).1.rr_counters =
      (init_state [] : RunState).rr_counters :=
  C9_unassigned_frame engC8 (init_state []) tC8 (by decide)

end Fire
